import Mathlib

/-!
# Model of `hook.go` (package `logrus_cloudwatchlogs_async`)

A shallow embedding of the asynchronous CloudWatch Logs hook for logrus.

* The buffered Go channel `hook.eventChannel` is a capacity together with the
  list of buffered events, oldest first (`Chan`).
* The AWS SDK request and response structs keep their field names; a Go
  `*string` that may be nil is an `Option String`.
* The remote service is a record of three functions (`CloudWatchLogs`); every
  call the code issues is also recorded in a list of `Effect`s, so that
  "a call is issued" is a statement about that list.
* `runLoop` is an endless `for { select { ... } }`.  One iteration is either
  the receive case (`recvEvent`) or the tick case (`tick`); the local slice
  `events` and the shared `Hook` form the `LoopState`.  While the tick case is
  blocked inside `PutLogEvents`, other goroutines may call `Fire`,
  `StartSendingEvents` and `StopSendingEvents`; `tick` takes the list of such
  calls that happen while the request is in flight.
-/

namespace logrus_cloudwatchlogs_async

/-! ## Data model -/

/-- A non-nil Go `error` value. -/
structure GoError where
  msg : String
  deriving DecidableEq, Repr

/-- The part of `aws.Config` that the model keeps; the hook only stores it and
hands it to `session.New`. -/
structure AwsConfig where
  Region : Option String
  deriving DecidableEq, Repr

/-- The struct `cloudwatchlogs.InputLogEvent`.  `Fire` always fills both fields. -/
structure InputLogEvent where
  Message : String
  Timestamp : Int
  deriving DecidableEq, Repr

/-- The struct `cloudwatchlogs.LogStream`, restricted to the fields that are read. -/
structure LogStream where
  LogStreamName : Option String
  UploadSequenceToken : Option String
  deriving DecidableEq, Repr

/-- The struct `cloudwatchlogs.DescribeLogStreamsInput` as `NewHook` fills it. -/
structure DescribeLogStreamsInput where
  LogGroupName : String
  LogStreamNamePrefix : String
  deriving DecidableEq, Repr

/-- The struct `cloudwatchlogs.DescribeLogStreamsOutput`. -/
structure DescribeLogStreamsOutput where
  LogStreams : List LogStream
  deriving DecidableEq, Repr

/-- The struct `cloudwatchlogs.CreateLogStreamInput` as `NewHook` fills it. -/
structure CreateLogStreamInput where
  LogGroupName : String
  LogStreamName : String
  deriving DecidableEq, Repr

/-- The struct `cloudwatchlogs.PutLogEventsInput` as `runLoop` fills it. -/
structure PutLogEventsInput where
  LogEvents : List InputLogEvent
  LogGroupName : String
  LogStreamName : String
  SequenceToken : Option String
  deriving DecidableEq, Repr

/-- The struct `cloudwatchlogs.PutLogEventsOutput`, restricted to the field that is read. -/
structure PutLogEventsOutput where
  NextSequenceToken : Option String
  deriving DecidableEq, Repr

/-- The remote service `*cloudwatchlogs.CloudWatchLogs`: each operation returns
either an error or its response. -/
structure CloudWatchLogs where
  DescribeLogStreams : DescribeLogStreamsInput → Except GoError DescribeLogStreamsOutput
  CreateLogStream : CreateLogStreamInput → Except GoError Unit
  PutLogEvents : PutLogEventsInput → Except GoError PutLogEventsOutput

/-- What the code does to the outside world: the three remote calls and the
start of the background goroutine (`go hook.runLoop()`). -/
inductive Effect where
  | describeLogStreams (input : DescribeLogStreamsInput)
  | createLogStream (input : CreateLogStreamInput)
  | putLogEvents (input : PutLogEventsInput)
  | goRunLoop
  deriving DecidableEq, Repr

/-- The constant `eventBufferSize`. -/
def eventBufferSize : Nat := 100

/-- The constant `sendingFrequency`, in nanoseconds (`200 * time.Millisecond`). -/
def sendingFrequency : Nat := 200 * 1000000

/-- A buffered Go channel of `InputLogEvent`: its capacity and the buffered
values, oldest first. -/
structure Chan where
  cap : Nat
  buf : List InputLogEvent
  deriving DecidableEq, Repr

/-- The call `make(chan cloudwatchlogs.InputLogEvent, n)`. -/
def Chan.make (n : Nat) : Chan := { cap := n, buf := [] }

/-- The statement `select { case ch <- event: default: }`: the send case runs
when the buffer has room, otherwise the default case runs and nothing changes.
The boolean tells which case ran. -/
def Chan.trySend (c : Chan) (event : InputLogEvent) : Chan × Bool :=
  if c.buf.length < c.cap then ({ c with buf := c.buf ++ [event] }, true) else (c, false)

/-- The struct `Hook`. -/
structure Hook where
  groupName : String
  streamName : String
  config : AwsConfig
  sequenceToken : Option String
  eventChannel : Chan
  isSendingEvents : Bool
  deriving DecidableEq, Repr

/-! ## `NewHook` -/

/-- The function `NewHook`.  The result is the Go pair `(*Hook, error)` and the
list of effects in the order they happen. -/
def NewHook (service : CloudWatchLogs) (groupName streamName : String) (config : AwsConfig) :
    (Option Hook × Option GoError) × List Effect :=
  let hook : Hook :=
    { groupName := groupName
      streamName := streamName
      config := config
      sequenceToken := none
      eventChannel := Chan.make eventBufferSize
      isSendingEvents := true }
  let describeInput : DescribeLogStreamsInput :=
    { LogGroupName := hook.groupName, LogStreamNamePrefix := hook.streamName }
  match service.DescribeLogStreams describeInput with
  | .error err => ((none, some err), [Effect.describeLogStreams describeInput])
  | .ok resp =>
    match resp.LogStreams with
    | first :: _ =>
      -- len(resp.LogStreams) > 0
      ((some { hook with sequenceToken := first.UploadSequenceToken }, none),
        [Effect.describeLogStreams describeInput, Effect.goRunLoop])
    | [] =>
      let createInput : CreateLogStreamInput :=
        { LogGroupName := hook.groupName, LogStreamName := hook.streamName }
      match service.CreateLogStream createInput with
      | .error err =>
        ((none, some err),
          [Effect.describeLogStreams describeInput, Effect.createLogStream createInput])
      | .ok _ =>
        ((some hook, none),
          [Effect.describeLogStreams describeInput, Effect.createLogStream createInput,
            Effect.goRunLoop])

/-! ## `Fire`, `StartSendingEvents`, `StopSendingEvents` -/

/-- The event that `Fire` builds from the formatted message and the clock:
`int64(time.Nanosecond) * time.Now().UnixNano() / int64(time.Millisecond)`,
where Go's integer division truncates toward zero. -/
def newEvent (message : String) (nowUnixNano : Int) : InputLogEvent :=
  { Message := message, Timestamp := Int.tdiv (1 * nowUnixNano) 1000000 }

/-- The method `Hook.Fire`.  `entryString` is the result of `entry.String()` and
`nowUnixNano` is the value of `time.Now().UnixNano()`.  The result is the hook
afterwards and the returned `error` (`none` for nil). -/
def Hook.Fire (hook : Hook) (entryString : Except GoError String) (nowUnixNano : Int) :
    Hook × Option GoError :=
  match entryString with
  | .error err => (hook, some err)
  | .ok message =>
    let event := newEvent message nowUnixNano
    ({ hook with eventChannel := (hook.eventChannel.trySend event).1 }, none)

/-- The method `Hook.StartSendingEvents`. -/
def Hook.StartSendingEvents (hook : Hook) : Hook := { hook with isSendingEvents := true }

/-- The method `Hook.StopSendingEvents`. -/
def Hook.StopSendingEvents (hook : Hook) : Hook := { hook with isSendingEvents := false }

/-- A call of one of the hook's methods from a producer goroutine. -/
inductive HookCall where
  | Fire (entryString : Except GoError String) (nowUnixNano : Int)
  | StartSendingEvents
  | StopSendingEvents
  deriving Repr

/-- The hook after a producer call. -/
def HookCall.apply (c : HookCall) (hook : Hook) : Hook :=
  match c with
  | .Fire entryString nowUnixNano => (hook.Fire entryString nowUnixNano).1
  | .StartSendingEvents => hook.StartSendingEvents
  | .StopSendingEvents => hook.StopSendingEvents

/-- The events that a producer call puts on the channel (the send case of the
`select` in `Fire` ran): at most one. -/
def HookCall.accepted (c : HookCall) (hook : Hook) : List InputLogEvent :=
  match c with
  | .Fire (.ok message) nowUnixNano =>
    if (hook.eventChannel.trySend (newEvent message nowUnixNano)).2 then
      [newEvent message nowUnixNano]
    else []
  | _ => []

/-- A sequence of producer calls, one after the other. -/
def applyCalls (calls : List HookCall) (hook : Hook) : Hook :=
  calls.foldl (fun h c => c.apply h) hook

/-- The events accepted by a sequence of producer calls, in call order. -/
def acceptedBy : List HookCall → Hook → List InputLogEvent
  | [], _ => []
  | c :: cs, hook => c.accepted hook ++ acceptedBy cs (c.apply hook)

/-- Firing one record per pair (message, clock value), each of which formats
successfully. -/
def fireCalls (es : List (String × Int)) : List HookCall :=
  es.map fun e => HookCall.Fire (.ok e.1) e.2

/-- The events that `Fire` builds for a list of (message, clock value) pairs. -/
def eventsOf (es : List (String × Int)) : List InputLogEvent :=
  es.map fun e => newEvent e.1 e.2

/-! ## `runLoop` -/

/-- The state that `runLoop` works on: the shared hook and the local slice
`events` (the pending batch). -/
structure LoopState where
  hook : Hook
  events : List InputLogEvent
  deriving DecidableEq, Repr

/-- The state in which `go hook.runLoop()` starts: `var events` is nil. -/
def LoopState.start (hook : Hook) : LoopState := { hook := hook, events := [] }

/-- The select case `case event := <-hook.eventChannel`: the oldest buffered
event is appended to `events`.  With an empty channel the case is not ready and
the state stays as it is. -/
def recvEvent (s : LoopState) : LoopState :=
  match s.hook.eventChannel.buf with
  | [] => s
  | event :: rest =>
    { hook := { s.hook with eventChannel := { s.hook.eventChannel with buf := rest } }
      events := s.events ++ [event] }

/-- The request that the tick case builds. -/
def putInput (s : LoopState) : PutLogEventsInput :=
  { LogEvents := s.events
    LogGroupName := s.hook.groupName
    LogStreamName := s.hook.streamName
    SequenceToken := s.hook.sequenceToken }

/-- The select case `case <-tickChannel`.  `put` is the remote `PutLogEvents`
at this moment and `during` are the producer calls that run while the request
is in flight.  The result is the state afterwards and the requests issued. -/
def tick (put : PutLogEventsInput → Except GoError PutLogEventsOutput)
    (during : List HookCall) (s : LoopState) : LoopState × List PutLogEventsInput :=
  if s.hook.isSendingEvents && decide (0 < s.events.length) then
    let input := putInput s
    let hook := applyCalls during s.hook
    match put input with
    | .ok resp =>
      ({ hook := { hook with sequenceToken := resp.NextSequenceToken }, events := [] }, [input])
    | .error _ => ({ hook := hook, events := s.events }, [input])
  else (s, [])

/-! ## The system as a step function -/

/-- One step of the system: a producer call, one iteration of `runLoop` through
the receive case, or one iteration through the tick case. -/
inductive Step where
  | call (c : HookCall)
  | recv
  | tick (put : PutLogEventsInput → Except GoError PutLogEventsOutput) (during : List HookCall)

/-- Whether a step is a call of `StartSendingEvents`. -/
def Step.isResume : Step → Bool
  | .call .StartSendingEvents => true
  | _ => false

/-- The state after one step. -/
def step (st : Step) (s : LoopState) : LoopState :=
  match st with
  | .call c => { s with hook := c.apply s.hook }
  | .recv => recvEvent s
  | .tick put during => (tick put during s).1

/-- The requests among `inputs` that `put` answers without an error. -/
def succeeded (put : PutLogEventsInput → Except GoError PutLogEventsOutput)
    (inputs : List PutLogEventsInput) : List PutLogEventsInput :=
  inputs.filter fun input =>
    match put input with
    | .ok _ => true
    | .error _ => false

/-- What has happened so far: the events put on the channel, in order; the
`PutLogEvents` requests issued, in order; and the batches of the requests
that succeeded, in order. -/
structure History where
  accepted : List InputLogEvent
  issued : List PutLogEventsInput
  appended : List (List InputLogEvent)
  deriving DecidableEq, Repr

/-- The history before anything has happened. -/
def History.empty : History := { accepted := [], issued := [], appended := [] }

/-- The history after one step taken in state `s`. -/
def record (st : Step) (s : LoopState) (h : History) : History :=
  match st with
  | .call c => { h with accepted := h.accepted ++ c.accepted s.hook }
  | .recv => h
  | .tick put during =>
    { accepted :=
        h.accepted ++ (if (tick put during s).2.isEmpty then [] else acceptedBy during s.hook)
      issued := h.issued ++ (tick put during s).2
      appended := h.appended ++ (succeeded put (tick put during s).2).map fun i => i.LogEvents }

/-- A sequence of steps, together with the history it leaves. -/
def run : List Step → LoopState × History → LoopState × History
  | [], sh => sh
  | st :: rest, sh => run rest (step st sh.1, record st sh.1 sh.2)

/-! ## `NewHook`: the four ways through the function -/

theorem NewHook_describe_error (service : CloudWatchLogs) (groupName streamName : String)
    (config : AwsConfig) (err : GoError)
    (hd : service.DescribeLogStreams ⟨groupName, streamName⟩ = .error err) :
    NewHook service groupName streamName config =
      ((none, some err), [Effect.describeLogStreams ⟨groupName, streamName⟩]) := by
  simp [NewHook, hd]

theorem NewHook_found (service : CloudWatchLogs) (groupName streamName : String)
    (config : AwsConfig) (first : LogStream) (rest : List LogStream)
    (hd : service.DescribeLogStreams ⟨groupName, streamName⟩ = .ok ⟨first :: rest⟩) :
    NewHook service groupName streamName config =
      ((some ⟨groupName, streamName, config, first.UploadSequenceToken,
          Chan.make eventBufferSize, true⟩, none),
        [Effect.describeLogStreams ⟨groupName, streamName⟩, Effect.goRunLoop]) := by
  simp [NewHook, hd]

theorem NewHook_create_error (service : CloudWatchLogs) (groupName streamName : String)
    (config : AwsConfig) (err : GoError)
    (hd : service.DescribeLogStreams ⟨groupName, streamName⟩ = .ok ⟨[]⟩)
    (hc : service.CreateLogStream ⟨groupName, streamName⟩ = .error err) :
    NewHook service groupName streamName config =
      ((none, some err),
        [Effect.describeLogStreams ⟨groupName, streamName⟩,
          Effect.createLogStream ⟨groupName, streamName⟩]) := by
  simp [NewHook, hd, hc]

theorem NewHook_created (service : CloudWatchLogs) (groupName streamName : String)
    (config : AwsConfig)
    (hd : service.DescribeLogStreams ⟨groupName, streamName⟩ = .ok ⟨[]⟩)
    (hc : service.CreateLogStream ⟨groupName, streamName⟩ = .ok ()) :
    NewHook service groupName streamName config =
      ((some ⟨groupName, streamName, config, none, Chan.make eventBufferSize, true⟩, none),
        [Effect.describeLogStreams ⟨groupName, streamName⟩,
          Effect.createLogStream ⟨groupName, streamName⟩, Effect.goRunLoop]) := by
  simp [NewHook, hd, hc]

theorem NewHook_cases (service : CloudWatchLogs) (groupName streamName : String)
    (config : AwsConfig) :
    (∃ err, service.DescribeLogStreams ⟨groupName, streamName⟩ = .error err ∧
      NewHook service groupName streamName config =
        ((none, some err), [Effect.describeLogStreams ⟨groupName, streamName⟩])) ∨
    (∃ first rest, service.DescribeLogStreams ⟨groupName, streamName⟩ = .ok ⟨first :: rest⟩ ∧
      NewHook service groupName streamName config =
        ((some ⟨groupName, streamName, config, first.UploadSequenceToken,
            Chan.make eventBufferSize, true⟩, none),
          [Effect.describeLogStreams ⟨groupName, streamName⟩, Effect.goRunLoop])) ∨
    (∃ err, service.DescribeLogStreams ⟨groupName, streamName⟩ = .ok ⟨[]⟩ ∧
      service.CreateLogStream ⟨groupName, streamName⟩ = .error err ∧
      NewHook service groupName streamName config =
        ((none, some err),
          [Effect.describeLogStreams ⟨groupName, streamName⟩,
            Effect.createLogStream ⟨groupName, streamName⟩])) ∨
    (service.DescribeLogStreams ⟨groupName, streamName⟩ = .ok ⟨[]⟩ ∧
      service.CreateLogStream ⟨groupName, streamName⟩ = .ok () ∧
      NewHook service groupName streamName config =
        ((some ⟨groupName, streamName, config, none, Chan.make eventBufferSize, true⟩, none),
          [Effect.describeLogStreams ⟨groupName, streamName⟩,
            Effect.createLogStream ⟨groupName, streamName⟩, Effect.goRunLoop])) := by
  cases hd : service.DescribeLogStreams ⟨groupName, streamName⟩ with
  | error err => exact Or.inl ⟨err, rfl, NewHook_describe_error _ _ _ _ _ hd⟩
  | ok resp =>
    obtain ⟨streams⟩ := resp
    cases streams with
    | cons first rest =>
      exact Or.inr (Or.inl ⟨first, rest, rfl, NewHook_found _ _ _ _ _ _ hd⟩)
    | nil =>
      cases hc : service.CreateLogStream ⟨groupName, streamName⟩ with
      | error err =>
        exact Or.inr (Or.inr (Or.inl ⟨err, rfl, rfl, NewHook_create_error _ _ _ _ _ hd hc⟩))
      | ok u =>
        exact Or.inr (Or.inr (Or.inr ⟨rfl, rfl, NewHook_created _ _ _ _ hd hc⟩))

/-! ## Producer side: the bounded queue -/

theorem Chan.trySend_eq (c : Chan) (e : InputLogEvent) :
    (c.trySend e).1 = ⟨c.cap, c.buf ++ List.take (c.cap - c.buf.length) [e]⟩ := by
  unfold Chan.trySend
  split
  · next h =>
    have : c.cap - c.buf.length = (c.cap - c.buf.length - 1) + 1 := by omega
    rw [this]
    simp
  · next h =>
    have : c.cap - c.buf.length = 0 := by omega
    cases c
    simp_all

theorem Chan.trySend_room (c : Chan) (e : InputLogEvent) (h : c.buf.length < c.cap) :
    c.trySend e = ({ c with buf := c.buf ++ [e] }, true) := by
  simp [Chan.trySend, h]

theorem Chan.trySend_full (c : Chan) (e : InputLogEvent) (h : ¬ c.buf.length < c.cap) :
    c.trySend e = (c, false) := by
  simp [Chan.trySend, h]

theorem take_room_cons (C : Nat) (b l : List InputLogEvent) (e : InputLogEvent) :
    (b ++ List.take (C - b.length) [e]) ++
        List.take (C - (b ++ List.take (C - b.length) [e]).length) l =
      b ++ List.take (C - b.length) (e :: l) := by
  by_cases h : b.length < C
  · obtain ⟨k, hk⟩ : ∃ k, C - b.length = k + 1 := ⟨C - b.length - 1, by omega⟩
    have h2 : C - (b.length + 1) = k := by omega
    simp [hk, h2]
  · have h1 : C - b.length = 0 := by omega
    simp [h1]

theorem applyCalls_fireCalls (es : List (String × Int)) (hook : Hook) :
    applyCalls (fireCalls es) hook =
      { hook with eventChannel :=
          ⟨hook.eventChannel.cap,
            hook.eventChannel.buf ++
              (eventsOf es).take (hook.eventChannel.cap - hook.eventChannel.buf.length)⟩ } := by
  induction es generalizing hook with
  | nil => simp [applyCalls, fireCalls, eventsOf]
  | cons e es ih =>
    have ih2 := ih (hook.Fire (.ok e.1) e.2).1
    simp only [applyCalls, fireCalls, List.map_cons, List.foldl_cons, HookCall.apply] at ih2 ⊢
    rw [ih2]
    simp only [Hook.Fire, Chan.trySend_eq, eventsOf, List.map_cons]
    rw [take_room_cons]

theorem eventsOf_take (k : Nat) (es : List (String × Int)) :
    eventsOf (es.take k) = (eventsOf es).take k := by
  simp [eventsOf, List.map_take]

theorem eventsOf_length (es : List (String × Int)) : (eventsOf es).length = es.length := by
  simp [eventsOf]

/-- C1 (FIFO-capacity drop law).  Fire `es.length` records, each of which
formats, into a hook whose queue is empty and has capacity `C`, with no
dispatcher receive in between.  Then the queue holds exactly
`min es.length C` events, namely the first `min es.length C` events of the
sequence in the order fired; every record fired once `C` or more records have
been fired leaves the hook as it is and `Fire` returns nil; and the queue of a
hook returned by `NewHook` is empty with capacity `eventBufferSize = 100`. -/
theorem fire_fifo_capacity_drop (hook : Hook) (C : Nat) (es : List (String × Int))
    (hq : hook.eventChannel = ⟨C, []⟩) :
    (applyCalls (fireCalls es) hook).eventChannel.buf = (eventsOf es).take (min es.length C) ∧
    (applyCalls (fireCalls es) hook).eventChannel.buf.length = min es.length C ∧
    (∀ k message now, C ≤ k → es.get? k = some (message, now) →
      (applyCalls (fireCalls (es.take k)) hook).Fire (.ok message) now =
        (applyCalls (fireCalls (es.take k)) hook, none)) ∧
    (∀ service groupName streamName config fresh,
      (NewHook service groupName streamName config).1.1 = some fresh →
        fresh.eventChannel = ⟨eventBufferSize, []⟩ ∧ eventBufferSize = 100) := by
  have hbuf : (applyCalls (fireCalls es) hook).eventChannel.buf
      = (eventsOf es).take (min es.length C) := by
    rw [applyCalls_fireCalls, hq]
    simp only [List.nil_append, List.length_nil, Nat.sub_zero]
    rcases Nat.le_total es.length C with h | h
    · rw [Nat.min_eq_left h, List.take_of_length_le (by rw [eventsOf_length]; exact h),
        List.take_of_length_le (by rw [eventsOf_length])]
    · rw [Nat.min_eq_right h]
  refine ⟨hbuf, ?_, ?_, ?_⟩
  · rw [hbuf]
    simp [eventsOf_length]
  · intro k message now hk hget
    have hlt : k < es.length := by
      rcases Nat.lt_or_ge k es.length with h | h
      · exact h
      · rw [List.get?_eq_none.mpr h] at hget
        cases hget
    rw [applyCalls_fireCalls, hq]
    have hfull : ¬ (List.take C (eventsOf (List.take k es))).length < C := by
      simp [eventsOf_length]
      omega
    simp only [Hook.Fire, List.nil_append, List.length_nil, Nat.sub_zero]
    rw [Chan.trySend_full _ _ hfull]
  · intro service groupName streamName config fresh hfresh
    refine ⟨?_, rfl⟩
    rcases NewHook_cases service groupName streamName config with
      ⟨err, -, h⟩ | ⟨first, rest, -, h⟩ | ⟨err, -, -, h⟩ | ⟨-, -, h⟩ <;>
    · rw [h] at hfresh
      simp at hfresh
      try (rw [← hfresh]; rfl)

/-- The spec's example for C1: capacity 3, records A, B, C, D fired in order;
the queue holds A, B, C and D is dropped. -/
theorem fire_fifo_capacity_drop_witness :
    (⟨"g", "s", ⟨none⟩, none, ⟨3, []⟩, true⟩ : Hook).eventChannel = ⟨3, []⟩ ∧
    (applyCalls (fireCalls [("A", 1000000), ("B", 2000000), ("C", 3000000), ("D", 4000000)])
        ⟨"g", "s", ⟨none⟩, none, ⟨3, []⟩, true⟩).eventChannel.buf
      = [⟨"A", 1⟩, ⟨"B", 2⟩, ⟨"C", 3⟩] := by
  refine ⟨rfl, ?_⟩
  have h := (fire_fifo_capacity_drop ⟨"g", "s", ⟨none⟩, none, ⟨3, []⟩, true⟩ 3
    [("A", 1000000), ("B", 2000000), ("C", 3000000), ("D", 4000000)] rfl).1
  rw [h]
  decide

/-- C5.  `Fire` returns an error exactly when formatting the record fails; the
error is then the formatting error and the hook (so the queue) is unchanged.
For a record that formats, `Fire` returns nil; with room in the queue the event
is appended at the tail, with a full queue the hook is unchanged. -/
theorem fire_error_iff_formatting_fails (hook : Hook) (entryString : Except GoError String)
    (now : Int) :
    ((hook.Fire entryString now).2 ≠ none ↔ ∃ err, entryString = .error err) ∧
    (∀ err, entryString = .error err → hook.Fire entryString now = (hook, some err)) ∧
    (∀ message, entryString = .ok message →
      (hook.Fire entryString now).2 = none ∧
      (hook.eventChannel.buf.length < hook.eventChannel.cap →
        (hook.Fire entryString now).1 =
          { hook with eventChannel :=
              { hook.eventChannel with
                buf := hook.eventChannel.buf ++ [newEvent message now] } }) ∧
      (¬ hook.eventChannel.buf.length < hook.eventChannel.cap →
        (hook.Fire entryString now).1 = hook)) := by
  refine ⟨?_, ?_, ?_⟩
  · cases entryString with
    | error err => simp [Hook.Fire]
    | ok message => simp [Hook.Fire]
  · intro err h
    subst h
    rfl
  · intro message h
    subst h
    refine ⟨rfl, ?_, ?_⟩
    · intro hroom
      simp only [Hook.Fire]
      rw [Chan.trySend_room _ _ hroom]
    · intro hfull
      simp only [Hook.Fire]
      rw [Chan.trySend_full _ _ hfull]

/-! ## Producer calls and the queue -/

theorem HookCall.apply_buf (c : HookCall) (hook : Hook) :
    (c.apply hook).eventChannel.buf = hook.eventChannel.buf ++ c.accepted hook := by
  cases c with
  | Fire entryString now =>
    cases entryString with
    | error err => simp [HookCall.apply, HookCall.accepted, Hook.Fire]
    | ok message =>
      by_cases h : hook.eventChannel.buf.length < hook.eventChannel.cap
      · simp [HookCall.apply, HookCall.accepted, Hook.Fire, Chan.trySend_room _ _ h]
      · simp [HookCall.apply, HookCall.accepted, Hook.Fire, Chan.trySend_full _ _ h]
  | StartSendingEvents => simp [HookCall.apply, HookCall.accepted, Hook.StartSendingEvents]
  | StopSendingEvents => simp [HookCall.apply, HookCall.accepted, Hook.StopSendingEvents]

theorem HookCall.apply_fixed (c : HookCall) (hook : Hook) :
    (c.apply hook).sequenceToken = hook.sequenceToken ∧
    (c.apply hook).groupName = hook.groupName ∧
    (c.apply hook).streamName = hook.streamName ∧
    (c.apply hook).eventChannel.cap = hook.eventChannel.cap := by
  cases c with
  | Fire entryString now =>
    cases entryString with
    | error err => simp [HookCall.apply, Hook.Fire]
    | ok message => simp [HookCall.apply, Hook.Fire, Chan.trySend_eq]
  | StartSendingEvents => simp [HookCall.apply, Hook.StartSendingEvents]
  | StopSendingEvents => simp [HookCall.apply, Hook.StopSendingEvents]

theorem applyCalls_cons (c : HookCall) (cs : List HookCall) (hook : Hook) :
    applyCalls (c :: cs) hook = applyCalls cs (c.apply hook) := rfl

theorem applyCalls_buf (cs : List HookCall) (hook : Hook) :
    (applyCalls cs hook).eventChannel.buf = hook.eventChannel.buf ++ acceptedBy cs hook := by
  induction cs generalizing hook with
  | nil => simp [applyCalls, acceptedBy]
  | cons c cs ih =>
    rw [applyCalls_cons, ih, HookCall.apply_buf]
    simp [acceptedBy]

theorem applyCalls_fixed (cs : List HookCall) (hook : Hook) :
    (applyCalls cs hook).sequenceToken = hook.sequenceToken ∧
    (applyCalls cs hook).groupName = hook.groupName ∧
    (applyCalls cs hook).streamName = hook.streamName ∧
    (applyCalls cs hook).eventChannel.cap = hook.eventChannel.cap := by
  induction cs generalizing hook with
  | nil => simp [applyCalls]
  | cons c cs ih =>
    rw [applyCalls_cons]
    obtain ⟨h1, h2, h3, h4⟩ := ih (c.apply hook)
    obtain ⟨k1, k2, k3, k4⟩ := HookCall.apply_fixed c hook
    exact ⟨h1.trans k1, h2.trans k2, h3.trans k3, h4.trans k4⟩

/-! ## The tick case -/

theorem tick_guard_iff (s : LoopState) :
    (s.hook.isSendingEvents && decide (0 < s.events.length)) = true ↔
      (s.hook.isSendingEvents = true ∧ s.events ≠ []) := by
  simp [List.length_pos]

theorem tick_idle (put : PutLogEventsInput → Except GoError PutLogEventsOutput)
    (during : List HookCall) (s : LoopState)
    (h : ¬ (s.hook.isSendingEvents = true ∧ s.events ≠ [])) :
    tick put during s = (s, []) := by
  have hg : ¬ (s.hook.isSendingEvents && decide (0 < s.events.length)) = true :=
    fun hg => h ((tick_guard_iff s).mp hg)
  simp only [tick, hg]
  rfl

theorem tick_ok (put : PutLogEventsInput → Except GoError PutLogEventsOutput)
    (during : List HookCall) (s : LoopState) (resp : PutLogEventsOutput)
    (h : s.hook.isSendingEvents = true ∧ s.events ≠ [])
    (hput : put (putInput s) = .ok resp) :
    tick put during s =
      ({ hook := { applyCalls during s.hook with sequenceToken := resp.NextSequenceToken }
         events := [] }, [putInput s]) := by
  have hg := (tick_guard_iff s).mpr h
  simp only [tick, hg, hput]
  rfl

theorem tick_error (put : PutLogEventsInput → Except GoError PutLogEventsOutput)
    (during : List HookCall) (s : LoopState) (err : GoError)
    (h : s.hook.isSendingEvents = true ∧ s.events ≠ [])
    (hput : put (putInput s) = .error err) :
    tick put during s =
      ({ hook := applyCalls during s.hook, events := s.events }, [putInput s]) := by
  have hg := (tick_guard_iff s).mpr h
  simp only [tick, hg, hput]
  rfl

theorem tick_issued (put : PutLogEventsInput → Except GoError PutLogEventsOutput)
    (during : List HookCall) (s : LoopState)
    (h : s.hook.isSendingEvents = true ∧ s.events ≠ []) :
    (tick put during s).2 = [putInput s] := by
  cases hput : put (putInput s) with
  | error err => rw [tick_error put during s err h hput]
  | ok resp => rw [tick_ok put during s resp h hput]

theorem putInput_congr (s t : LoopState) (he : t.events = s.events)
    (hg : t.hook.groupName = s.hook.groupName) (hs : t.hook.streamName = s.hook.streamName)
    (ht : t.hook.sequenceToken = s.hook.sequenceToken) : putInput t = putInput s := by
  simp [putInput, he, hg, hs, ht]

theorem recvEvent_iterate (n : Nat) (s : LoopState) (hn : s.hook.eventChannel.buf.length = n) :
    (recvEvent^[n] s).events = s.events ++ s.hook.eventChannel.buf ∧
    (recvEvent^[n] s).hook.eventChannel.buf = [] := by
  induction n generalizing s with
  | zero =>
    have : s.hook.eventChannel.buf = [] := List.length_eq_zero.mp hn
    simp [this]
  | succ n ih =>
    rw [Function.iterate_succ_apply]
    cases hb : s.hook.eventChannel.buf with
    | nil => rw [hb] at hn; cases hn
    | cons event rest =>
      have hr : recvEvent s =
          { hook := { s.hook with eventChannel := { s.hook.eventChannel with buf := rest } }
            events := s.events ++ [event] } := by
        simp [recvEvent, hb]
      have hlen : (recvEvent s).hook.eventChannel.buf.length = n := by
        rw [hr]
        rw [hb] at hn
        simpa using hn
      obtain ⟨h1, h2⟩ := ih (recvEvent s) hlen
      refine ⟨?_, h2⟩
      rw [h1, hr]
      simp

/-- C2.  In a state with sending enabled and a non-empty pending batch, a tick
whose `PutLogEvents` call succeeds and returns the token `T` (a string or
absent) issues exactly that one call, leaves the pending batch empty and
leaves `sequenceToken` equal to `T`, whatever producers do during the call. -/
theorem tick_success_clears_batch_and_adopts_token
    (put : PutLogEventsInput → Except GoError PutLogEventsOutput) (during : List HookCall)
    (s : LoopState) (T : Option String)
    (hen : s.hook.isSendingEvents = true) (hne : s.events ≠ [])
    (hok : put (putInput s) = .ok ⟨T⟩) :
    (tick put during s).2 = [putInput s] ∧
    (tick put during s).1.events = [] ∧
    (tick put during s).1.hook.sequenceToken = T := by
  rw [tick_ok put during s ⟨T⟩ ⟨hen, hne⟩ hok]
  exact ⟨rfl, rfl, rfl⟩

/-- An instance of C2: batch of one event, old token T0, the call returns an
absent token. -/
theorem tick_success_clears_batch_and_adopts_token_witness :
    (tick (fun _ => .ok ⟨none⟩) []
        ⟨⟨"g", "s", ⟨none⟩, some "T0", ⟨100, []⟩, true⟩, [⟨"A", 1⟩]⟩).1.events = [] ∧
    (tick (fun _ => .ok ⟨none⟩) []
        ⟨⟨"g", "s", ⟨none⟩, some "T0", ⟨100, []⟩, true⟩, [⟨"A", 1⟩]⟩).1.hook.sequenceToken
      = none :=
  (tick_success_clears_batch_and_adopts_token (fun _ => .ok ⟨none⟩) []
    ⟨⟨"g", "s", ⟨none⟩, some "T0", ⟨100, []⟩, true⟩, [⟨"A", 1⟩]⟩ none rfl (by simp) rfl).2

/-- C3 as stated fails: the batch is [A], the record E is fired while the
failing `PutLogEvents` call is in flight and is put on the channel; after the
tick the pending batch is still [A], not [A, E]. -/
theorem tick_failure_batch_counterexample :
    acceptedBy [HookCall.Fire (.ok "E") 5000000] ⟨"g", "s", ⟨none⟩, some "T1", ⟨100, []⟩, true⟩
      = [⟨"E", 5⟩] ∧
    (tick (fun _ => .error ⟨"unavailable"⟩) [HookCall.Fire (.ok "E") 5000000]
        ⟨⟨"g", "s", ⟨none⟩, some "T1", ⟨100, []⟩, true⟩, [⟨"A", 1⟩]⟩).1.events = [⟨"A", 1⟩] ∧
    (tick (fun _ => .error ⟨"unavailable"⟩) [HookCall.Fire (.ok "E") 5000000]
        ⟨⟨"g", "s", ⟨none⟩, some "T1", ⟨100, []⟩, true⟩, [⟨"A", 1⟩]⟩).1.events
      ≠ [⟨"A", 1⟩] ++
          acceptedBy [HookCall.Fire (.ok "E") 5000000]
            ⟨"g", "s", ⟨none⟩, some "T1", ⟨100, []⟩, true⟩ ∧
    (tick (fun _ => .error ⟨"unavailable"⟩) [HookCall.Fire (.ok "E") 5000000]
        ⟨⟨"g", "s", ⟨none⟩, some "T1", ⟨100, []⟩, true⟩, [⟨"A", 1⟩]⟩).1.hook.eventChannel.buf
      = [⟨"E", 5⟩] := by
  refine ⟨by decide, by decide, by decide, by decide⟩

/-- C3 as amended.  In a state with sending enabled and a non-empty pending
batch, a tick whose `PutLogEvents` call fails issues that one call and leaves
the pending batch and `sequenceToken` exactly as they were, whatever producers
do during the call; the events accepted during the call are appended to the
queue, in order.  When no producer call happens during the request the whole
state is unchanged, and as long as sending is still enabled the next tick
issues the same request again. -/
theorem tick_failure_keeps_batch_and_token
    (put : PutLogEventsInput → Except GoError PutLogEventsOutput) (during : List HookCall)
    (s : LoopState) (err : GoError)
    (hen : s.hook.isSendingEvents = true) (hne : s.events ≠ [])
    (herr : put (putInput s) = .error err) :
    (tick put during s).2 = [putInput s] ∧
    (tick put during s).1.events = s.events ∧
    (tick put during s).1.hook.sequenceToken = s.hook.sequenceToken ∧
    (tick put during s).1.hook.eventChannel.buf
      = s.hook.eventChannel.buf ++ acceptedBy during s.hook ∧
    (during = [] → (tick put during s).1 = s) ∧
    (∀ put2 during2, (tick put during s).1.hook.isSendingEvents = true →
      (tick put2 during2 (tick put during s).1).2 = [putInput s]) := by
  rw [tick_error put during s err ⟨hen, hne⟩ herr]
  obtain ⟨k1, k2, k3, -⟩ := applyCalls_fixed during s.hook
  refine ⟨rfl, rfl, k1, applyCalls_buf during s.hook, ?_, ?_⟩
  · intro hd
    subst hd
    rfl
  · intro put2 during2 hen2
    rw [tick_issued put2 during2 _ ⟨hen2, hne⟩]
    exact congrArg (fun i => [i])
      (putInput_congr s { hook := applyCalls during s.hook, events := s.events } rfl k2 k3 k1)

/-- An instance of C3 as amended: the batch [E] with token T1 survives a failed
call, as in the spec's scenario. -/
theorem tick_failure_keeps_batch_and_token_witness :
    (tick (fun _ => .error ⟨"unavailable"⟩) []
        ⟨⟨"g", "s", ⟨none⟩, some "T1", ⟨100, []⟩, true⟩, [⟨"E", 5⟩]⟩).1.events = [⟨"E", 5⟩] ∧
    (tick (fun _ => .error ⟨"unavailable"⟩) []
        ⟨⟨"g", "s", ⟨none⟩, some "T1", ⟨100, []⟩, true⟩, [⟨"E", 5⟩]⟩).1.hook.sequenceToken
      = some "T1" :=
  ⟨(tick_failure_keeps_batch_and_token (fun _ => .error ⟨"unavailable"⟩) []
      ⟨⟨"g", "s", ⟨none⟩, some "T1", ⟨100, []⟩, true⟩, [⟨"E", 5⟩]⟩ ⟨"unavailable"⟩
      rfl (by simp) rfl).2.1,
    (tick_failure_keeps_batch_and_token (fun _ => .error ⟨"unavailable"⟩) []
      ⟨⟨"g", "s", ⟨none⟩, some "T1", ⟨100, []⟩, true⟩, [⟨"E", 5⟩]⟩ ⟨"unavailable"⟩
      rfl (by simp) rfl).2.2.1⟩

/-- C8 as stated fails: A is on the channel and the pending batch is [B] when
the tick runs (B was fired and received, then A was fired).  The request
carries [B] only, and after the successful call the channel still holds A. -/
theorem tick_drain_counterexample :
    (run [.call (.Fire (.ok "B") 0), .recv, .call (.Fire (.ok "A") 1000000)]
        (LoopState.start ⟨"g", "s", ⟨none⟩, none, ⟨100, []⟩, true⟩, History.empty)).1
      = ⟨⟨"g", "s", ⟨none⟩, none, ⟨100, [⟨"A", 1⟩]⟩, true⟩, [⟨"B", 0⟩]⟩ ∧
    (⟨"A", 1⟩ : InputLogEvent) ∈
      (⟨⟨"g", "s", ⟨none⟩, none, ⟨100, [⟨"A", 1⟩]⟩, true⟩, [⟨"B", 0⟩]⟩ :
        LoopState).hook.eventChannel.buf ∧
    (tick (fun _ => .ok ⟨some "T1"⟩) []
        ⟨⟨"g", "s", ⟨none⟩, none, ⟨100, [⟨"A", 1⟩]⟩, true⟩, [⟨"B", 0⟩]⟩).2
      = [⟨[⟨"B", 0⟩], "g", "s", none⟩] ∧
    (⟨"A", 1⟩ : InputLogEvent) ∉ ([⟨"B", 0⟩] : List InputLogEvent) ∧
    (tick (fun _ => .ok ⟨some "T1"⟩) []
        ⟨⟨"g", "s", ⟨none⟩, none, ⟨100, [⟨"A", 1⟩]⟩, true⟩, [⟨"B", 0⟩]⟩).1.hook.eventChannel.buf
      = [⟨"A", 1⟩] ∧
    (tick (fun _ => .ok ⟨some "T1"⟩) []
        ⟨⟨"g", "s", ⟨none⟩, none, ⟨100, [⟨"A", 1⟩]⟩, true⟩, [⟨"B", 0⟩]⟩).1.hook.eventChannel.buf
      ≠ [] := by
  refine ⟨by decide, by decide, by decide, by decide, by decide, by decide⟩

/-- C8 as amended.  The tick case does not receive from the channel: every
request it issues carries exactly the pending batch as it was before the tick;
the tick takes nothing off the queue (the queue afterwards is the queue before
followed by what producers enqueued during the request, and is unchanged when
there was none); after a tick whose call succeeds the pending batch is empty
and the queue is still what it was.  Queued events reach the pending batch
only through the receive case, one per loop iteration: as many receives as
there are queued events move the whole queue, in order, to the end of the
pending batch and leave the queue empty. -/
theorem tick_sends_pending_batch_and_keeps_queue
    (put : PutLogEventsInput → Except GoError PutLogEventsOutput) (during : List HookCall)
    (s : LoopState) :
    (∀ input ∈ (tick put during s).2, input.LogEvents = s.events) ∧
    (tick put during s).1.hook.eventChannel.buf
      = s.hook.eventChannel.buf ++
          (if (tick put during s).2.isEmpty then [] else acceptedBy during s.hook) ∧
    (tick put [] s).1.hook.eventChannel = s.hook.eventChannel ∧
    (∀ T, s.hook.isSendingEvents = true → s.events ≠ [] → put (putInput s) = .ok ⟨T⟩ →
      (tick put [] s).1.events = [] ∧
      (tick put [] s).1.hook.eventChannel.buf = s.hook.eventChannel.buf) ∧
    (recvEvent^[s.hook.eventChannel.buf.length] s).events
      = s.events ++ s.hook.eventChannel.buf ∧
    (recvEvent^[s.hook.eventChannel.buf.length] s).hook.eventChannel.buf = [] := by
  have hrecv := recvEvent_iterate s.hook.eventChannel.buf.length s rfl
  by_cases hg : s.hook.isSendingEvents = true ∧ s.events ≠ []
  · cases hput : put (putInput s) with
    | error err =>
      rw [tick_error put during s err hg hput, tick_error put [] s err hg hput]
      refine ⟨?_, ?_, rfl, ?_, hrecv.1, hrecv.2⟩
      · intro input hin
        simp at hin
        rw [hin]
        rfl
      · simpa using applyCalls_buf during s.hook
      · intro T _ _ h
        cases h
    | ok resp =>
      rw [tick_ok put during s resp hg hput, tick_ok put [] s resp hg hput]
      refine ⟨?_, ?_, rfl, ?_, hrecv.1, hrecv.2⟩
      · intro input hin
        simp at hin
        rw [hin]
        rfl
      · simpa using applyCalls_buf during s.hook
      · intro T _ _ _
        exact ⟨rfl, rfl⟩
  · rw [tick_idle put during s hg, tick_idle put [] s hg]
    refine ⟨?_, ?_, rfl, ?_, hrecv.1, hrecv.2⟩
    · intro input hin
      simp at hin
    · simp
    · intro T h1 h2 _
      exact absurd ⟨h1, h2⟩ hg

/-! ## The gate -/

theorem step_stop_eq (s : LoopState) :
    step (.call .StopSendingEvents) s
      = { hook := { s.hook with isSendingEvents := false }, events := s.events } := rfl

theorem step_start_eq (s : LoopState) :
    step (.call .StartSendingEvents) s
      = { hook := { s.hook with isSendingEvents := true }, events := s.events } := rfl

theorem iterate_of_idempotent {α : Type} (f : α → α) (hf : ∀ x, f (f x) = f x) (n : Nat)
    (hn : 1 ≤ n) (x : α) : f^[n] x = f x := by
  obtain ⟨m, rfl⟩ : ∃ m, n = m + 1 := ⟨n - 1, by omega⟩
  rw [Function.iterate_succ_apply]
  exact Function.iterate_fixed (hf x) m

/-- C10.  For every state and every `n ≥ 1`, `n` calls of `StopSendingEvents`
in a row leave the same state as one call, with the flag false; `n` calls of
`StartSendingEvents` in a row leave the same state as one call, with the flag
true; and one call of either changes neither the queue, nor the pending
batch, nor the token. -/
theorem gate_calls_idempotent (s : LoopState) (n : Nat) (hn : 1 ≤ n) :
    (step (.call .StopSendingEvents))^[n] s = step (.call .StopSendingEvents) s ∧
    (step (.call .StartSendingEvents))^[n] s = step (.call .StartSendingEvents) s ∧
    Hook.StopSendingEvents^[n] s.hook = s.hook.StopSendingEvents ∧
    Hook.StartSendingEvents^[n] s.hook = s.hook.StartSendingEvents ∧
    (step (.call .StopSendingEvents) s).hook.isSendingEvents = false ∧
    (step (.call .StartSendingEvents) s).hook.isSendingEvents = true ∧
    (step (.call .StopSendingEvents) s).hook.eventChannel = s.hook.eventChannel ∧
    (step (.call .StartSendingEvents) s).hook.eventChannel = s.hook.eventChannel ∧
    (step (.call .StopSendingEvents) s).events = s.events ∧
    (step (.call .StartSendingEvents) s).events = s.events ∧
    (step (.call .StopSendingEvents) s).hook.sequenceToken = s.hook.sequenceToken ∧
    (step (.call .StartSendingEvents) s).hook.sequenceToken = s.hook.sequenceToken := by
  refine ⟨?_, ?_, ?_, ?_, rfl, rfl, rfl, rfl, rfl, rfl, rfl, rfl⟩
  · exact iterate_of_idempotent (step (.call .StopSendingEvents)) (fun _ => rfl) n hn s
  · exact iterate_of_idempotent (step (.call .StartSendingEvents)) (fun _ => rfl) n hn s
  · exact iterate_of_idempotent Hook.StopSendingEvents (fun _ => rfl) n hn s.hook
  · exact iterate_of_idempotent Hook.StartSendingEvents (fun _ => rfl) n hn s.hook

/-- An instance of C10: three pauses in a row from an enabled state with a
queued event, a pending event and a token. -/
theorem gate_calls_idempotent_witness :
    (step (.call .StopSendingEvents))^[3]
        ⟨⟨"g", "s", ⟨none⟩, some "T1", ⟨100, [⟨"A", 1⟩]⟩, true⟩, [⟨"B", 0⟩]⟩
      = ⟨⟨"g", "s", ⟨none⟩, some "T1", ⟨100, [⟨"A", 1⟩]⟩, false⟩, [⟨"B", 0⟩]⟩ :=
  (gate_calls_idempotent
    ⟨⟨"g", "s", ⟨none⟩, some "T1", ⟨100, [⟨"A", 1⟩]⟩, true⟩, [⟨"B", 0⟩]⟩ 3 (by decide)).1

/-! ## Runs while paused -/

theorem run_cons (st : Step) (rest : List Step) (sh : LoopState × History) :
    run (st :: rest) sh = run rest (step st sh.1, record st sh.1 sh.2) := rfl

theorem Hook.Fire_isSendingEvents (hook : Hook) (entryString : Except GoError String)
    (now : Int) : (hook.Fire entryString now).1.isSendingEvents = hook.isSendingEvents := by
  cases entryString <;> rfl

theorem recvEvent_keeps (s : LoopState) :
    (recvEvent s).hook.isSendingEvents = s.hook.isSendingEvents ∧
    s.events <+: (recvEvent s).events := by
  unfold recvEvent
  split
  · exact ⟨rfl, List.prefix_refl _⟩
  · exact ⟨rfl, List.prefix_append _ _⟩

theorem step_paused (st : Step) (s : LoopState) (h : History)
    (hp : s.hook.isSendingEvents = false) (hr : st.isResume = false) :
    (step st s).hook.isSendingEvents = false ∧
    s.events <+: (step st s).events ∧
    (record st s h).issued = h.issued := by
  cases st with
  | call c =>
    cases c with
    | Fire entryString now =>
      refine ⟨?_, List.prefix_refl _, rfl⟩
      simp only [step, HookCall.apply]
      rw [Hook.Fire_isSendingEvents]
      exact hp
    | StartSendingEvents => simp [Step.isResume] at hr
    | StopSendingEvents => exact ⟨rfl, List.prefix_refl _, rfl⟩
  | recv =>
    obtain ⟨h1, h2⟩ := recvEvent_keeps s
    exact ⟨h1.trans hp, h2, rfl⟩
  | tick put during =>
    have hg : ¬ (s.hook.isSendingEvents = true ∧ s.events ≠ []) := by
      rw [hp]
      simp
    simp only [step, record, tick_idle put during s hg]
    exact ⟨hp, List.prefix_refl _, by simp⟩

theorem run_paused (steps : List Step) (s : LoopState) (h : History)
    (hp : s.hook.isSendingEvents = false) (hr : ∀ st ∈ steps, st.isResume = false) :
    (run steps (s, h)).2.issued = h.issued ∧
    (run steps (s, h)).1.hook.isSendingEvents = false ∧
    s.events <+: (run steps (s, h)).1.events := by
  induction steps generalizing s h with
  | nil => exact ⟨rfl, hp, List.prefix_refl _⟩
  | cons st rest ih =>
    obtain ⟨k1, k2, k3⟩ := step_paused st s h hp (hr st (List.mem_cons_self _ _))
    obtain ⟨j1, j2, j3⟩ := ih (step st s) (record st s h) k1
      (fun st' hst' => hr st' (List.mem_cons_of_mem _ hst'))
    rw [run_cons]
    exact ⟨j1.trans k3, j2, k2.trans j3⟩

/-- C4.  A tick issues a `PutLogEvents` call exactly when sending is enabled
and the pending batch is non-empty.  The call then carries the whole pending
batch, in order, with the group, the stream and the current token.  Otherwise
the tick changes nothing: pending batch, token, queue and flag stay as they
are.  Hence from a paused state, any sequence of steps without a resume (any
number of ticks, receives, records fired, pauses) issues no call, stays paused
and only extends the pending batch; and if the batch is then non-empty, the
tick that follows a resume sends exactly that whole batch. -/
theorem tick_issues_call_iff_enabled_and_pending
    (put : PutLogEventsInput → Except GoError PutLogEventsOutput) (during : List HookCall)
    (s : LoopState) :
    ((tick put during s).2 ≠ [] ↔ (s.hook.isSendingEvents = true ∧ s.events ≠ [])) ∧
    ((s.hook.isSendingEvents = true ∧ s.events ≠ []) →
      (tick put during s).2
        = [⟨s.events, s.hook.groupName, s.hook.streamName, s.hook.sequenceToken⟩]) ∧
    (¬ (s.hook.isSendingEvents = true ∧ s.events ≠ []) → tick put during s = (s, [])) ∧
    (∀ (steps : List Step) (h : History), s.hook.isSendingEvents = false →
      (∀ st ∈ steps, st.isResume = false) →
      (run steps (s, h)).2.issued = h.issued ∧
      (run steps (s, h)).1.hook.isSendingEvents = false ∧
      s.events <+: (run steps (s, h)).1.events ∧
      ((run steps (s, h)).1.events ≠ [] →
        (tick put during (step (.call .StartSendingEvents) (run steps (s, h)).1)).2
          = [⟨(run steps (s, h)).1.events, (run steps (s, h)).1.hook.groupName,
              (run steps (s, h)).1.hook.streamName,
              (run steps (s, h)).1.hook.sequenceToken⟩])) := by
  refine ⟨?_, ?_, ?_, ?_⟩
  · constructor
    · intro hne
      by_contra hg
      rw [tick_idle put during s hg] at hne
      exact hne rfl
    · intro hg
      rw [tick_issued put during s hg]
      simp
  · intro hg
    rw [tick_issued put during s hg]
    rfl
  · exact tick_idle put during s
  · intro steps h hp hr
    obtain ⟨k1, k2, k3⟩ := run_paused steps s h hp hr
    refine ⟨k1, k2, k3, ?_⟩
    intro hne
    have hg :
        (step (.call .StartSendingEvents) (run steps (s, h)).1).hook.isSendingEvents = true ∧
          (step (.call .StartSendingEvents) (run steps (s, h)).1).events ≠ [] := ⟨rfl, hne⟩
    rw [tick_issued put during _ hg]
    rfl

/-- An instance of C4: while paused, A is fired and received and two ticks
pass without a request; the tick after the resume sends the batch [A]. -/
theorem tick_issues_call_iff_enabled_and_pending_witness :
    (run [.call (.Fire (.ok "A") 1000000), .recv, .tick (fun _ => .ok ⟨some "T1"⟩) [],
          .tick (fun _ => .ok ⟨some "T1"⟩) []]
        (⟨⟨"g", "s", ⟨none⟩, none, ⟨100, []⟩, false⟩, []⟩, History.empty)).2.issued = [] ∧
    (tick (fun _ => .ok ⟨some "T1"⟩) []
        (step (.call .StartSendingEvents)
          (run [.call (.Fire (.ok "A") 1000000), .recv, .tick (fun _ => .ok ⟨some "T1"⟩) [],
              .tick (fun _ => .ok ⟨some "T1"⟩) []]
            (⟨⟨"g", "s", ⟨none⟩, none, ⟨100, []⟩, false⟩, []⟩, History.empty)).1)).2
      = [⟨[⟨"A", 1⟩], "g", "s", none⟩] := by
  have h := (tick_issues_call_iff_enabled_and_pending (fun _ => .ok ⟨some "T1"⟩) []
    ⟨⟨"g", "s", ⟨none⟩, none, ⟨100, []⟩, false⟩, []⟩).2.2.2
    [.call (.Fire (.ok "A") 1000000), .recv, .tick (fun _ => .ok ⟨some "T1"⟩) [],
      .tick (fun _ => .ok ⟨some "T1"⟩) []]
    History.empty rfl (by decide)
  refine ⟨h.1, ?_⟩
  rw [h.2.2.2 (by decide)]
  decide

/-! ## Order and no loss -/

theorem succeeded_ok (put : PutLogEventsInput → Except GoError PutLogEventsOutput)
    (input : PutLogEventsInput) (resp : PutLogEventsOutput) (h : put input = .ok resp) :
    succeeded put [input] = [input] := by
  simp [succeeded, h]

theorem succeeded_error (put : PutLogEventsInput → Except GoError PutLogEventsOutput)
    (input : PutLogEventsInput) (err : GoError) (h : put input = .error err) :
    succeeded put [input] = [] := by
  simp [succeeded, h]

theorem step_keeps_account (st : Step) (s : LoopState) (h : History)
    (hinv : h.appended.flatten ++ s.events ++ s.hook.eventChannel.buf = h.accepted) :
    (record st s h).appended.flatten ++ (step st s).events ++ (step st s).hook.eventChannel.buf
      = (record st s h).accepted := by
  cases st with
  | call c =>
    simp only [step, record]
    rw [HookCall.apply_buf, ← hinv]
    simp
  | recv =>
    simp only [step, record, recvEvent]
    rw [← hinv]
    split
    · rfl
    · next event rest hb =>
      simp [hb]
  | tick put during =>
    by_cases hg : s.hook.isSendingEvents = true ∧ s.events ≠ []
    · cases hput : put (putInput s) with
      | error err =>
        simp only [step, record, tick_error put during s err hg hput,
          succeeded_error put _ err hput]
        rw [applyCalls_buf, ← hinv]
        simp
      | ok resp =>
        simp only [step, record, tick_ok put during s resp hg hput,
          succeeded_ok put _ resp hput]
        rw [applyCalls_buf, ← hinv]
        simp [putInput]
    · simp only [step, record, tick_idle put during s hg]
      rw [← hinv]
      simp [succeeded]

theorem record_accepted_extends (st : Step) (s : LoopState) (h : History) :
    h.accepted <+: (record st s h).accepted := by
  cases st with
  | call c => exact List.prefix_append _ _
  | recv => exact List.prefix_refl _
  | tick put during => exact List.prefix_append _ _

theorem step_keeps_batches_in_order (st : Step) (s : LoopState) (h : History)
    (hinv : h.appended.flatten ++ s.events ++ s.hook.eventChannel.buf = h.accepted)
    (hiss : ∀ input ∈ h.issued, input.LogEvents <:+: h.accepted) :
    ∀ input ∈ (record st s h).issued, input.LogEvents <:+: (record st s h).accepted := by
  have hext := record_accepted_extends st s h
  have hold : ∀ input ∈ h.issued, input.LogEvents <:+: (record st s h).accepted :=
    fun input hin => (hiss input hin).trans hext.isInfix
  cases st with
  | call c => exact hold
  | recv => exact hold
  | tick put during =>
    intro input hin
    simp only [record, List.mem_append] at hin
    rcases hin with hin | hin
    · exact hold input hin
    · by_cases hg : s.hook.isSendingEvents = true ∧ s.events ≠ []
      · rw [tick_issued put during s hg] at hin
        simp at hin
        subst hin
        have h1 : (putInput s).LogEvents <:+: h.accepted :=
          ⟨h.appended.flatten, s.hook.eventChannel.buf, hinv⟩
        exact h1.trans hext.isInfix
      · rw [tick_idle put during s hg] at hin
        simp at hin

theorem run_keeps_account (steps : List Step) (s : LoopState) (h : History)
    (hinv : h.appended.flatten ++ s.events ++ s.hook.eventChannel.buf = h.accepted)
    (hiss : ∀ input ∈ h.issued, input.LogEvents <:+: h.accepted) :
    (run steps (s, h)).2.appended.flatten ++ (run steps (s, h)).1.events ++
        (run steps (s, h)).1.hook.eventChannel.buf
      = (run steps (s, h)).2.accepted ∧
    ∀ input ∈ (run steps (s, h)).2.issued,
      input.LogEvents <:+: (run steps (s, h)).2.accepted := by
  induction steps generalizing s h with
  | nil => exact ⟨hinv, hiss⟩
  | cons st rest ih =>
    rw [run_cons]
    exact ih (step st s) (record st s h) (step_keeps_account st s h hinv)
      (step_keeps_batches_in_order st s h hinv hiss)

/-- C9.  Start the loop with an empty queue and an empty pending batch and take
any sequence of steps (producer calls `Fire`, `StartSendingEvents`,
`StopSendingEvents`; receives of one queued event; ticks whose call succeeds or
fails, with any producer calls during the request).  In the state reached, the
batches of the successful `PutLogEvents` calls, in call order, followed by the
pending batch, followed by the queue, is exactly the sequence of events that
`Fire` put on the channel, in that order; and the batch of every call issued,
successful or not, is a run of consecutive events of that sequence. -/
theorem run_keeps_order_and_loses_nothing (steps : List Step) (s0 : LoopState)
    (hev : s0.events = []) (hq : s0.hook.eventChannel.buf = []) :
    (run steps (s0, History.empty)).2.appended.flatten ++
        (run steps (s0, History.empty)).1.events ++
        (run steps (s0, History.empty)).1.hook.eventChannel.buf
      = (run steps (s0, History.empty)).2.accepted ∧
    ∀ input ∈ (run steps (s0, History.empty)).2.issued,
      input.LogEvents <:+: (run steps (s0, History.empty)).2.accepted := by
  apply run_keeps_account
  · simp [History.empty, hev, hq]
  · intro input hin
    simp [History.empty] at hin

/-- An instance of C9, the spec's scenario on a queue of capacity 3: A, B, C, D
are fired (D is dropped), the loop receives A, B and C, a tick succeeds with
token T1, E is fired and received, a tick fails, the next tick succeeds. -/
theorem run_keeps_order_and_loses_nothing_witness :
    (run
        [.call (.Fire (.ok "A") 1000000), .call (.Fire (.ok "B") 2000000),
          .call (.Fire (.ok "C") 3000000), .call (.Fire (.ok "D") 4000000),
          .recv, .recv, .recv, .tick (fun _ => .ok ⟨some "T1"⟩) [],
          .call (.Fire (.ok "E") 5000000), .recv,
          .tick (fun _ => .error ⟨"unavailable"⟩) [], .tick (fun _ => .ok ⟨some "T2"⟩) []]
        (⟨⟨"g", "s", ⟨none⟩, none, ⟨3, []⟩, true⟩, []⟩, History.empty)).2.appended.flatten ++
      (run
        [.call (.Fire (.ok "A") 1000000), .call (.Fire (.ok "B") 2000000),
          .call (.Fire (.ok "C") 3000000), .call (.Fire (.ok "D") 4000000),
          .recv, .recv, .recv, .tick (fun _ => .ok ⟨some "T1"⟩) [],
          .call (.Fire (.ok "E") 5000000), .recv,
          .tick (fun _ => .error ⟨"unavailable"⟩) [], .tick (fun _ => .ok ⟨some "T2"⟩) []]
        (⟨⟨"g", "s", ⟨none⟩, none, ⟨3, []⟩, true⟩, []⟩, History.empty)).1.events ++
      (run
        [.call (.Fire (.ok "A") 1000000), .call (.Fire (.ok "B") 2000000),
          .call (.Fire (.ok "C") 3000000), .call (.Fire (.ok "D") 4000000),
          .recv, .recv, .recv, .tick (fun _ => .ok ⟨some "T1"⟩) [],
          .call (.Fire (.ok "E") 5000000), .recv,
          .tick (fun _ => .error ⟨"unavailable"⟩) [], .tick (fun _ => .ok ⟨some "T2"⟩) []]
        (⟨⟨"g", "s", ⟨none⟩, none, ⟨3, []⟩, true⟩, []⟩,
          History.empty)).1.hook.eventChannel.buf
    = (run
        [.call (.Fire (.ok "A") 1000000), .call (.Fire (.ok "B") 2000000),
          .call (.Fire (.ok "C") 3000000), .call (.Fire (.ok "D") 4000000),
          .recv, .recv, .recv, .tick (fun _ => .ok ⟨some "T1"⟩) [],
          .call (.Fire (.ok "E") 5000000), .recv,
          .tick (fun _ => .error ⟨"unavailable"⟩) [], .tick (fun _ => .ok ⟨some "T2"⟩) []]
        (⟨⟨"g", "s", ⟨none⟩, none, ⟨3, []⟩, true⟩, []⟩, History.empty)).2.accepted :=
  (run_keeps_order_and_loses_nothing _ ⟨⟨"g", "s", ⟨none⟩, none, ⟨3, []⟩, true⟩, []⟩
    rfl rfl).1

/-- The spec's end-to-end scenario, evaluated: state and history at the end. -/
theorem scenario_run :
    run
        [.call (.Fire (.ok "A") 1000000), .call (.Fire (.ok "B") 2000000),
          .call (.Fire (.ok "C") 3000000), .call (.Fire (.ok "D") 4000000),
          .recv, .recv, .recv, .tick (fun _ => .ok ⟨some "T1"⟩) [],
          .call (.Fire (.ok "E") 5000000), .recv,
          .tick (fun _ => .error ⟨"unavailable"⟩) [], .tick (fun _ => .ok ⟨some "T2"⟩) []]
        (⟨⟨"g", "s", ⟨none⟩, none, ⟨3, []⟩, true⟩, []⟩, History.empty)
      = (⟨⟨"g", "s", ⟨none⟩, some "T2", ⟨3, []⟩, true⟩, []⟩,
          ⟨[⟨"A", 1⟩, ⟨"B", 2⟩, ⟨"C", 3⟩, ⟨"E", 5⟩],
            [⟨[⟨"A", 1⟩, ⟨"B", 2⟩, ⟨"C", 3⟩], "g", "s", none⟩,
              ⟨[⟨"E", 5⟩], "g", "s", some "T1"⟩, ⟨[⟨"E", 5⟩], "g", "s", some "T1"⟩],
            [[⟨"A", 1⟩, ⟨"B", 2⟩, ⟨"C", 3⟩], [⟨"E", 5⟩]]⟩) := by
  decide

/-! ## Initialization -/

/-- C7.  `NewHook` returns an error exactly when `DescribeLogStreams` fails, or
it lists no stream and `CreateLogStream` fails.  It then returns that call's
error and no hook, and does not start `runLoop`.  Otherwise it returns a nil
error and a hook with sending enabled and an empty queue, and starts `runLoop`
exactly once. -/
theorem newHook_fails_fast (service : CloudWatchLogs) (groupName streamName : String)
    (config : AwsConfig) :
    ((NewHook service groupName streamName config).1.2 ≠ none ↔
      ((∃ err, service.DescribeLogStreams ⟨groupName, streamName⟩ = .error err) ∨
        (service.DescribeLogStreams ⟨groupName, streamName⟩ = .ok ⟨[]⟩ ∧
          ∃ err, service.CreateLogStream ⟨groupName, streamName⟩ = .error err))) ∧
    (∀ err, service.DescribeLogStreams ⟨groupName, streamName⟩ = .error err →
      NewHook service groupName streamName config =
        ((none, some err), [Effect.describeLogStreams ⟨groupName, streamName⟩])) ∧
    (∀ err, service.DescribeLogStreams ⟨groupName, streamName⟩ = .ok ⟨[]⟩ →
      service.CreateLogStream ⟨groupName, streamName⟩ = .error err →
      NewHook service groupName streamName config =
        ((none, some err),
          [Effect.describeLogStreams ⟨groupName, streamName⟩,
            Effect.createLogStream ⟨groupName, streamName⟩])) ∧
    ((NewHook service groupName streamName config).1.2 ≠ none →
      (NewHook service groupName streamName config).1.1 = none ∧
      Effect.goRunLoop ∉ (NewHook service groupName streamName config).2) ∧
    ((NewHook service groupName streamName config).1.2 = none →
      ∃ hook, (NewHook service groupName streamName config).1.1 = some hook ∧
        hook.isSendingEvents = true ∧ hook.eventChannel.buf = [] ∧
        (NewHook service groupName streamName config).2.count Effect.goRunLoop = 1) := by
  refine ⟨?_, fun err hd => NewHook_describe_error _ _ _ _ err hd,
    fun err hd hc => NewHook_create_error _ _ _ _ err hd hc, ?_, ?_⟩
  · rcases NewHook_cases service groupName streamName config with
      ⟨err, hd, h⟩ | ⟨first, rest, hd, h⟩ | ⟨err, hd, hc, h⟩ | ⟨hd, hc, h⟩ <;>
    · rw [h, hd]
      simp [*]
  · rcases NewHook_cases service groupName streamName config with
      ⟨err, hd, h⟩ | ⟨first, rest, hd, h⟩ | ⟨err, hd, hc, h⟩ | ⟨hd, hc, h⟩ <;>
    · rw [h]
      simp
  · rcases NewHook_cases service groupName streamName config with
      ⟨err, hd, h⟩ | ⟨first, rest, hd, h⟩ | ⟨err, hd, hc, h⟩ | ⟨hd, hc, h⟩ <;>
    · rw [h]
      simp [Chan.make]

/-- C6, the code at the failing input.  The stream asked for is "app"; the
group holds the stream "app-1" only, which `DescribeLogStreams` lists because
it selects by the beginning of the name.  No listed stream is named "app", yet
`NewHook` issues no `CreateLogStream` call and seeds the token of "app-1". -/
theorem newHook_takes_first_listed_stream :
    (∀ ls ∈ [(⟨some "app-1", some "T1"⟩ : LogStream)], ls.LogStreamName ≠ some "app") ∧
    NewHook ⟨fun _ => .ok ⟨[⟨some "app-1", some "T1"⟩]⟩, fun _ => .ok (), fun _ => .ok ⟨none⟩⟩
        "g" "app" ⟨none⟩
      = ((some ⟨"g", "app", ⟨none⟩, some "T1", ⟨100, []⟩, true⟩, none),
          [Effect.describeLogStreams ⟨"g", "app"⟩, Effect.goRunLoop]) ∧
    Effect.createLogStream ⟨"g", "app"⟩ ∉
      (NewHook ⟨fun _ => .ok ⟨[⟨some "app-1", some "T1"⟩]⟩, fun _ => .ok (),
        fun _ => .ok ⟨none⟩⟩ "g" "app" ⟨none⟩).2 := by
  refine ⟨by decide, by decide, by decide⟩

end logrus_cloudwatchlogs_async
